import Mathlib

/-!
Shallow embedding of the GCP secret reconciliation engine of
`packages/gcp-secrets/src/executors/deploy/deploy.impl.ts`.

The executor is hand-compiled into pure Lean functions.  Remote `gcloud`
invocations are modelled by outcomes supplied through an environment
(`UnitEnv`); an exception escaping a JavaScript expression is modelled by the
`Except.error` constructor threaded through the control flow exactly where the
source would let the exception propagate.  The observable behaviour of one run
is the ordered list of `Event`s (remote operations attempted and file writes
performed) together with the returned success flag.
-/

namespace NxGcpSecrets

/-- The `__gcp_metadata` block of a secret definition file. -/
structure GcpMetadata where
  status : String
  labels : List String
  serviceAccounts : Option (List String)
  onUpdateBehavior : Option String
deriving DecidableEq

/-- In-memory content of a secret definition file. -/
structure FileContent where
  meta : GcpMetadata
  payload : String
deriving DecidableEq

/-- One entry of the `gcloud secrets list --format=json` output
(`ExistingSecret` in the source).  A JavaScript object's fields enumerate in
insertion order, so the `labels` object is an ordered association list. -/
structure ExistingSecret where
  name : String
  labels : Option (List (String × String))
deriving DecidableEq

/-- One entry of `bindings` in a `gcloud secrets get-iam-policy` response. -/
structure Binding where
  members : List String
  role : String
deriving DecidableEq

/-- `ExistingServiceAccounts` in the source: a get-iam-policy response. -/
structure ExistingServiceAccounts where
  bindings : Option (List Binding)
deriving DecidableEq

/-- `DeploySchema` in the source: the executor options. -/
structure DeploySchema where
  project : Option String
  secret : Option String
deriving DecidableEq

/-- A remote operation attempted by the executor (one `execCommand` call). -/
inductive Op where
  | listSecrets
  | updateLabels (secretName labelsArg : String)
  | addVersion (secretName : String)
  | retireVersion (secretName mode : String) (version : Option Int)
  | create (secretName labelsArg : String)
  | getIamPolicy (secretName : String)
  | grant (secretName member : String)
  | revoke (secretName member : String)
deriving DecidableEq

/-- An observable event of a run: a remote operation, or a `storeFile` write
of `content` to the definition file `file`. -/
inductive Event where
  | op (o : Op)
  | store (file : String) (content : FileContent)
deriving DecidableEq

/-- Outcomes the remote service gives to the fallible calls of one secret's
unit of work.  `Except.error` models the call raising (a non-zero `gcloud`
exit or unparsable JSON surfacing as a thrown exception). -/
structure UnitEnv where
  addVersionOutcome : Except String String
  createOutcome : Except String Bool
  iamPolicyOutcome : Except String ExistingServiceAccounts

/-- JavaScript truthiness of `options.secret` (`undefined` and `""` are
falsy), as tested on line 62. -/
def jsTruthy : Option String → Bool
  | none => false
  | some s => s != ""

/-- JavaScript `o || dflt` for an optional string (line 115). -/
def jsOrDefault (o : Option String) (dflt : String) : String :=
  match o with
  | none => dflt
  | some s => if s = "" then dflt else s

/-- Splitting helper: `fuel` bounds the recursion and is inert whenever it
starts at least at the length of the remaining input, since every step
consumes at least one character. -/
def jsSplitAux (sep : List Char) : Nat → List Char → List Char → List (List Char)
  | _, cur, [] => [cur.reverse]
  | 0, cur, s => [cur.reverse ++ s]
  | Nat.succ n, cur, c :: rest =>
    if sep.isPrefixOf (c :: rest) then
      cur.reverse :: jsSplitAux sep n [] ((c :: rest).drop sep.length)
    else
      jsSplitAux sep n (c :: cur) rest

/-- JavaScript `s.split(sep)` for a non-empty separator: the pieces between
the leftmost non-overlapping occurrences of `sep`, empty pieces included. -/
def jsSplit (s sep : String) : List String :=
  (jsSplitAux sep.data (s.data.length + 1) [] s.data).map String.mk

/-- JavaScript `parts.join(sep)`. -/
def jsJoin (sep : String) : List String → String
  | [] => ""
  | [x] => x
  | x :: rest => x ++ sep ++ jsJoin sep rest

/-- JavaScript `s.split(sep).pop()`: the last piece of the split (lines 49
and 113).  `jsSplit` never returns `[]`, so the default is inert. -/
def lastSplit (s sep : String) : String :=
  (jsSplit s sep).getLastD ""

/-- Lines 55–59: `fileName.split('.')` with the last part popped and the rest
re-joined with `.` — the secret name derived from the file name. -/
def secretNameOf (fileName : String) : String :=
  jsJoin "." (jsSplit fileName ".").dropLast

/-- Digit-accumulation helper for `parseIntJs`. -/
def parseIntAux (acc : Nat) : List Char → Nat
  | [] => acc
  | c :: rest => parseIntAux (acc * 10 + (c.toNat - 48)) rest

/-- JavaScript `parseInt(s, 10)` on the version identifiers returned by the
secret service: the leading run of decimal digits, or `none` (modelling
`NaN`) when the string does not start with a digit. -/
def parseIntJs (s : String) : Option Int :=
  match s.data with
  | [] => none
  | c :: _ =>
    if c.isDigit then
      some (Int.ofNat (parseIntAux 0 (s.data.takeWhile Char.isDigit)))
    else none

/-- Line 62: should this file be skipped because a `secret` filter is set and
names a different secret? -/
def filteredOut (optSecret : Option String) (secretName : String) : Bool :=
  match optSecret with
  | none => false
  | some s => s != "" && s != secretName

/-- Lines 235–254 (`addLabelsIfNeeded`): the labels argument of the `gcloud
secrets create`/`update` command. -/
def addLabelsIfNeeded (labels : List String) (isCreating : Bool) : String :=
  if labels.length > 0 then
    if isCreating then
      "--labels=" ++ jsJoin "," labels
    else
      "--clear-labels --update-labels=" ++ jsJoin "," labels
  else
    "--clear-labels"

/-- Lines 82–86: the remote secret's labels object serialized to `key=value`
strings in the object's key order.  (`JSON.stringify` is injective on arrays
of strings, so the line-89 comparison of the two serialized arrays is exactly
list equality of these string lists.) -/
def existingLabelStrings (labels : Option (List (String × String))) : List String :=
  (labels.getD []).map (fun kv => kv.1 ++ "=" ++ kv.2)

/-- Lines 177–180: the members currently bound to the
`roles/secretmanager.secretAccessor` role in a get-iam-policy response. -/
def existingAccessorMembers (pol : ExistingServiceAccounts) : List String :=
  match pol.bindings with
  | some bs =>
      ((bs.find? (fun b => b.role == "roles/secretmanager.secretAccessor")).map
        Binding.members).getD []
  | none => []

/-- Lines 162–210: the IAM reconciliation tail of one secret's unit of work.
Skipped entirely unless the metadata carries a `serviceAccounts` array; the
policy fetch can raise, while the per-member add/remove binding commands are
fire-and-forget (their results are ignored by the source). -/
def iamSection (secretName : String) (meta : GcpMetadata) (env : UnitEnv) :
    List Event × Except String Unit :=
  match meta.serviceAccounts with
  | none => ([], Except.ok ())
  | some allowed =>
    match env.iamPolicyOutcome with
    | Except.error e => ([Event.op (Op.getIamPolicy secretName)], Except.error e)
    | Except.ok pol =>
      let existingSA := existingAccessorMembers pol
      let toAdd := allowed.filter (fun a => !existingSA.contains a)
      let toDelete := existingSA.filter (fun a => !allowed.contains a)
      (Event.op (Op.getIamPolicy secretName)
          :: (toAdd.map (fun m => Event.op (Op.grant secretName m))
            ++ toDelete.map (fun m => Event.op (Op.revoke secretName m))),
        Except.ok ())

/-- Lines 81–136: the update path taken when the secret already exists
remotely.  The `versions add` call can raise (line 102); the label update and
the retirement commands are fire-and-forget. -/
def updatePath (secretName : String) (fileContent : FileContent)
    (secretExists : ExistingSecret) (env : UnitEnv) :
    List Event × Except String Bool :=
  let existingLabels := existingLabelStrings secretExists.labels
  let labelEvents :=
    if existingLabels ≠ fileContent.meta.labels then
      [Event.op (Op.updateLabels secretName
        (addLabelsIfNeeded fileContent.meta.labels false))]
    else []
  match env.addVersionOutcome with
  | Except.error e =>
      (labelEvents ++ [Event.op (Op.addVersion secretName)], Except.error e)
  | Except.ok name =>
    let newVersion := lastSplit name "/versions/"
    let updateBehavior := jsOrDefault fileContent.meta.onUpdateBehavior "destroy"
    let retireEvents :=
      if updateBehavior ≠ "none" then
        if updateBehavior = "destroy" ∨ updateBehavior = "disable" then
          [Event.op (Op.retireVersion secretName updateBehavior
            ((parseIntJs newVersion).map (fun n => n - 1)))]
        else []
      else []
    (labelEvents ++ [Event.op (Op.addVersion secretName)] ++ retireEvents,
      Except.ok true)

/-- Lines 137–154: the create path taken when the secret does not exist
remotely.  The create call either raises or returns its success flag. -/
def createPath (secretName : String) (fileContent : FileContent)
    (env : UnitEnv) : List Event × Except String Bool :=
  match env.createOutcome with
  | Except.error e =>
      ([Event.op (Op.create secretName
        (addLabelsIfNeeded fileContent.meta.labels true))], Except.error e)
  | Except.ok commandSuccess =>
      ([Event.op (Op.create secretName
        (addLabelsIfNeeded fileContent.meta.labels true))],
        Except.ok commandSuccess)

/-- Lines 54–213: one secret's unit of work.  Returns the events it performs
in order together with its returned value; `Except.error` models an exception
escaping the unit (there is no try/catch inside it — the only handler is the
run-level one on line 218). -/
def processFile (options : DeploySchema) (decryptFile : FileContent → FileContent)
    (existingSecrets : List ExistingSecret) (env : UnitEnv)
    (file : String) (fileContent : FileContent) :
    List Event × Except String Bool :=
  let secretName := secretNameOf file
  if filteredOut options.secret secretName then
    ([], Except.ok true)
  else
    let isFileEncrypted := fileContent.meta.status = "encrypted"
    let decEvents :=
      if isFileEncrypted then [Event.store file (decryptFile fileContent)] else []
    let branch :=
      match existingSecrets.find? (fun s => s.name == secretName) with
      | some secretExists => updatePath secretName fileContent secretExists env
      | none => createPath secretName fileContent env
    match branch with
    | (evs, Except.error e) => (decEvents ++ evs, Except.error e)
    | (evs, Except.ok success) =>
      let reEncEvents :=
        if isFileEncrypted then [Event.store file fileContent] else []
      match iamSection secretName fileContent.meta env with
      | (iamEvs, Except.error e) =>
          (decEvents ++ evs ++ reEncEvents ++ iamEvs, Except.error e)
      | (iamEvs, Except.ok _) =>
          (decEvents ++ evs ++ reEncEvents ++ iamEvs, Except.ok success)

/-- One declared secret file handed to the run: its name, its content as read
by `getFileContent`, and the remote outcomes its unit will encounter. -/
structure FileInput where
  file : String
  content : FileContent
  env : UnitEnv

/-- Did this unit's promise resolve with `true` (the value a skipped or
succeeded secret contributes to `secretsCreated`)? -/
def isOkTrue : Except String Bool → Bool
  | Except.ok b => b
  | Except.error _ => false

/-- Did this unit's promise reject? -/
def isErr : Except String Bool → Bool
  | Except.ok _ => false
  | Except.error _ => true

/-- Lines 47–50: the listed remote secrets with their `name` fields reduced
to the part after `/secrets/`. -/
def snapshotOf (raw : List ExistingSecret) : List ExistingSecret :=
  raw.map (fun s => { s with name := lastSplit s.name "/secrets/" })

/-- The unit of work the run starts for one declared file. -/
def unitOf (options : DeploySchema) (decryptFile : FileContent → FileContent)
    (existingSecrets : List ExistingSecret) (fi : FileInput) :
    List Event × Except String Bool :=
  processFile options decryptFile existingSecrets fi.env fi.file fi.content

/-- Lines 29–227 (`deployExecutor`).  `keySet` models `isEncryptionKeySet()`;
`listOutcome` the up-front `gcloud secrets list` call.  Every unit's body is
synchronous, so `files.map(async …)` runs every unit to completion (and
performs all its events) before `Promise.all` settles; a rejection is then
caught by the run-level handler, which returns `success: false`. -/
def deployExecutor (keySet : Bool) (options : DeploySchema)
    (decryptFile : FileContent → FileContent)
    (listOutcome : Except String (List ExistingSecret))
    (files : List FileInput) : List Event × Bool :=
  if keySet then
    match listOutcome with
    | Except.error _ => ([Event.op Op.listSecrets], false)
    | Except.ok raw =>
      let results := files.map (unitOf options decryptFile (snapshotOf raw))
      let events := Event.op Op.listSecrets :: (results.map Prod.fst).flatten
      if results.any (fun r => isErr r.2) then
        (events, false)
      else
        let secretsCreated := results.map (fun r => isOkTrue r.2)
        (events, decide ((secretsCreated.filter (fun b => b)).length = files.length))
  else
    ([], true)

/-- The content a definition file holds on disk after a list of events, given
the content it held initially. -/
def finalContent (file : String) (initial : FileContent) :
    List Event → FileContent
  | [] => initial
  | Event.store f c :: rest =>
      finalContent file (if f = file then c else initial) rest
  | Event.op _ :: rest => finalContent file initial rest

/-- Is this event a file write? -/
def Event.isStore : Event → Bool
  | Event.store _ _ => true
  | Event.op _ => false

/-- Is this event one of the IAM calls (get-iam-policy, add binding, remove
binding)? -/
def Event.isIamOp : Event → Bool
  | Event.op (Op.getIamPolicy _) => true
  | Event.op (Op.grant _ _) => true
  | Event.op (Op.revoke _ _) => true
  | _ => false

/-! ## Concrete example inputs (used by witnesses and counterexamples) -/

/-- An executor invocation with no project scope and no secret filter. -/
def exOptions : DeploySchema := { project := none, secret := none }

/-- Metadata of a plaintext declared secret with one label. -/
def exPlainMeta : GcpMetadata :=
  { status := "plaintext", labels := ["env=prod"], serviceAccounts := none,
    onUpdateBehavior := none }

/-- A plaintext declared secret named `db` with one label. -/
def exPlain : FileContent := { meta := exPlainMeta, payload := "s3cret" }

/-- Metadata of an encrypted declared secret with no labels. -/
def exEncryptedMeta : GcpMetadata :=
  { status := "encrypted", labels := [], serviceAccounts := none,
    onUpdateBehavior := none }

/-- An encrypted declared secret named `db` with no labels. -/
def exEncrypted : FileContent := { meta := exEncryptedMeta, payload := "cipher" }

/-- A decryption function marking the payload decrypted. -/
def exDecrypt : FileContent → FileContent := fun c =>
  { c with payload := "plain", meta := { c.meta with status := "plaintext" } }

/-- Remote outcomes where every call succeeds; the new version is `5`. -/
def exEnvOk : UnitEnv :=
  { addVersionOutcome := Except.ok "projects/p/secrets/db/versions/5",
    createOutcome := Except.ok true,
    iamPolicyOutcome := Except.ok { bindings := none } }

/-- Remote outcomes where the `versions add` call raises. -/
def exEnvAddVersionRaises : UnitEnv :=
  { addVersionOutcome := Except.error "boom",
    createOutcome := Except.ok true,
    iamPolicyOutcome := Except.ok { bindings := none } }

/-- A remote secret named `db` whose labels object holds the same pairs as
`["a=1", "b=2"]` but in the opposite insertion order. -/
def exRemoteDbSwapped : ExistingSecret :=
  { name := "db", labels := some [("b", "2"), ("a", "1")] }

/-- A remote secret named `db` with no labels. -/
def exRemoteDb : ExistingSecret := { name := "db", labels := none }

/-- Metadata of a plaintext declared secret with labels `a=1`, `b=2` and
`onUpdateBehavior: none`. -/
def exPlainABMeta : GcpMetadata :=
  { status := "plaintext", labels := ["a=1", "b=2"], serviceAccounts := none,
    onUpdateBehavior := some "none" }

/-- A plaintext declared secret named `db` with labels `a=1`, `b=2`. -/
def exPlainAB : FileContent := { meta := exPlainABMeta, payload := "s3cret" }

/-- Metadata declaring two service accounts. -/
def exSaMeta : GcpMetadata :=
  { status := "plaintext", labels := [], serviceAccounts := some ["sa:x", "sa:y"],
    onUpdateBehavior := none }

/-- A binding of `sa:y` and `sa:z` to the accessor role. -/
def exBinding : Binding :=
  { members := ["sa:y", "sa:z"], role := "roles/secretmanager.secretAccessor" }

/-- A get-iam-policy response binding `sa:y` and `sa:z` to the accessor
role. -/
def exPolicy : ExistingServiceAccounts := { bindings := some [exBinding] }

/-- Remote outcomes whose get-iam-policy call returns `exPolicy`. -/
def exEnvPol : UnitEnv :=
  { addVersionOutcome := Except.ok "projects/p/secrets/db/versions/5",
    createOutcome := Except.ok true,
    iamPolicyOutcome := Except.ok exPolicy }

/-- An invocation whose `secret` filter names `other`. -/
def exOptionsOther : DeploySchema := { project := none, secret := some "other" }

/-! ## Shared helper lemmas -/

lemma op_not_mem_storeIf {p : Prop} [Decidable p] (o : Op) (f : String)
    (c : FileContent) : Event.op o ∉ (if p then [Event.store f c] else []) := by
  split <;> simp

lemma count_op_storeIf {p : Prop} [Decidable p] (o : Op) (f : String)
    (c : FileContent) :
    (if p then [Event.store f c] else []).count (Event.op o) = 0 := by
  split <;> simp

lemma run_list_error (options : DeploySchema) (d : FileContent → FileContent)
    (e : String) (files : List FileInput) :
    deployExecutor true options d (Except.error e) files =
      ([Event.op Op.listSecrets], false) := rfl

lemma run_events_ok (options : DeploySchema) (d : FileContent → FileContent)
    (raw : List ExistingSecret) (files : List FileInput) :
    (deployExecutor true options d (Except.ok raw) files).1 =
      Event.op Op.listSecrets ::
        (files.map (fun fi => (unitOf options d (snapshotOf raw) fi).1)).flatten := by
  simp only [deployExecutor, if_true]
  split <;> simp [List.map_map, Function.comp_def]

lemma filter_length_decide_all (l : List Bool) :
    (decide ((l.filter (fun b => b)).length = l.length)) = l.all (fun b => b) := by
  induction l with
  | nil => rfl
  | cons b t ih =>
    cases b with
    | false =>
      have hle := List.length_filter_le (fun b => b) t
      simp only [List.filter_cons, List.all_cons, Bool.false_and,
        Bool.false_eq_true, if_false, List.length_cons]
      exact decide_eq_false (by omega)
    | true =>
      simp only [List.filter_cons, List.all_cons, Bool.true_and,
        if_true, List.length_cons]
      rw [← ih]
      exact decide_eq_decide.mpr (by omega)

lemma run_flag_eq_all (options : DeploySchema) (d : FileContent → FileContent)
    (raw : List ExistingSecret) (files : List FileInput) :
    (deployExecutor true options d (Except.ok raw) files).2 =
      files.all (fun fi => isOkTrue (unitOf options d (snapshotOf raw) fi).2) := by
  simp only [deployExecutor, if_true]
  by_cases h : (files.map (unitOf options d (snapshotOf raw))).any (fun r => isErr r.2)
  · simp only [h, if_true]
    rcases List.any_eq_true.mp h with ⟨r, hr, hrerr⟩
    rcases List.mem_map.mp hr with ⟨fi, hfi, rfl⟩
    have : isOkTrue (unitOf options d (snapshotOf raw) fi).2 = false := by
      cases hu : (unitOf options d (snapshotOf raw) fi).2 with
      | ok b => rw [hu] at hrerr; simp [isErr] at hrerr
      | error e => simp [isOkTrue]
    symm
    simp only [List.all_eq_false]
    exact ⟨fi, hfi, by simp [this]⟩
  · simp only [h, Bool.false_eq_true, if_false, List.map_map]
    rw [show (fun r => isOkTrue (Prod.snd r)) ∘ unitOf options d (snapshotOf raw)
      = fun fi => isOkTrue (unitOf options d (snapshotOf raw) fi).2 from rfl]
    rw [show files.length
      = (files.map (fun fi =>
          isOkTrue (unitOf options d (snapshotOf raw) fi).2)).length by simp]
    rw [filter_length_decide_all]
    induction files with
    | nil => rfl
    | cons fhd ftl ih2 => simp_all

/-! ## Claims -/

/-- **C5.**  For every declared secret that does not exist in the remote
snapshot (and is not excluded by the `secret` filter), the unit of work
performs exactly one `create` operation, carrying the labels argument built
from the declared labels, and performs no `addVersion`, no `updateLabels` and
no `retireVersion` operation in the same pass. -/
theorem nonexistent_secret_plans_single_create (options : DeploySchema)
    (decrypt : FileContent → FileContent) (existingSecrets : List ExistingSecret)
    (env : UnitEnv) (file : String) (fc : FileContent)
    (hf : filteredOut options.secret (secretNameOf file) = false)
    (hfind : existingSecrets.find? (fun s => s.name == secretNameOf file) = none) :
    ((processFile options decrypt existingSecrets env file fc).1.count
        (Event.op (Op.create (secretNameOf file)
          (addLabelsIfNeeded fc.meta.labels true))) = 1)
    ∧ (∀ sn, Event.op (Op.addVersion sn) ∉
        (processFile options decrypt existingSecrets env file fc).1)
    ∧ (∀ sn arg, Event.op (Op.updateLabels sn arg) ∉
        (processFile options decrypt existingSecrets env file fc).1)
    ∧ (∀ sn m v, Event.op (Op.retireVersion sn m v) ∉
        (processFile options decrypt existingSecrets env file fc).1) := by
  simp only [processFile, hf, hfind, Bool.false_eq_true, if_false, createPath]
  cases henv : env.createOutcome with
  | error e =>
    simp [henv, List.count_append, List.count_cons, count_op_storeIf,
      op_not_mem_storeIf]
  | ok b =>
    cases hsa : fc.meta.serviceAccounts with
    | none =>
      simp [henv, hsa, iamSection, List.count_append, List.count_cons,
        count_op_storeIf, op_not_mem_storeIf]
    | some allowed =>
      cases hiam : env.iamPolicyOutcome with
      | error e =>
        simp [henv, hsa, hiam, iamSection, List.count_append, List.count_cons,
          count_op_storeIf, op_not_mem_storeIf]
      | ok pol =>
        simp [henv, hsa, hiam, iamSection, List.count_append, List.count_cons,
          count_op_storeIf, op_not_mem_storeIf, List.count_eq_zero, List.mem_map]

end NxGcpSecrets

namespace NxGcpSecrets

/-- Witness for `nonexistent_secret_plans_single_create` at a concrete input:
a plaintext `db.json` declared against an empty remote snapshot. -/
theorem nonexistent_secret_plans_single_create_witness :
    (filteredOut exOptions.secret (secretNameOf "db.json") = false
      ∧ ([] : List ExistingSecret).find?
          (fun s => s.name == secretNameOf "db.json") = none)
    ∧ (processFile exOptions exDecrypt [] exEnvOk "db.json" exPlain).1.count
        (Event.op (Op.create (secretNameOf "db.json")
          (addLabelsIfNeeded exPlain.meta.labels true))) = 1 :=
  ⟨⟨by decide, by decide⟩,
    (nonexistent_secret_plans_single_create exOptions exDecrypt [] exEnvOk
      "db.json" exPlain (by decide) (by decide)).1⟩

end NxGcpSecrets

namespace NxGcpSecrets

/-- **C2.**  A failure of the up-front listing aborts the whole run (success
`false`, no secret processed); any error raised inside one secret's unit of
work makes the run report failure, while every declared file's unit still
runs to completion and contributes its events to the run's trace — one
secret's error never suppresses the processing of the others. -/
theorem error_isolation_and_listing_abort :
    (∀ (options : DeploySchema) (d : FileContent → FileContent) (e : String)
        (files : List FileInput),
      deployExecutor true options d (Except.error e) files =
        ([Event.op Op.listSecrets], false))
    ∧ (∀ (options : DeploySchema) (d : FileContent → FileContent)
        (raw : List ExistingSecret) (files : List FileInput),
      (deployExecutor true options d (Except.ok raw) files).1 =
        Event.op Op.listSecrets ::
          (files.map (fun fi => (unitOf options d (snapshotOf raw) fi).1)).flatten)
    ∧ (∀ (options : DeploySchema) (d : FileContent → FileContent)
        (raw : List ExistingSecret) (files : List FileInput) (fi : FileInput),
      fi ∈ files → isErr (unitOf options d (snapshotOf raw) fi).2 = true →
      (deployExecutor true options d (Except.ok raw) files).2 = false) := by
  refine ⟨run_list_error, run_events_ok, ?_⟩
  intro options d raw files fi hmem herr
  rw [run_flag_eq_all]
  simp only [List.all_eq_false]
  refine ⟨fi, hmem, ?_⟩
  cases hu : (unitOf options d (snapshotOf raw) fi).2 with
  | ok b => rw [hu] at herr; simp [isErr] at herr
  | error e => simp [isOkTrue]

/-- Witness for `error_isolation_and_listing_abort`: a single encrypted file
whose `versions add` call raises makes the run report failure. -/
theorem error_isolation_and_listing_abort_witness :
    ((⟨"db.json", exEncrypted, exEnvAddVersionRaises⟩ : FileInput) ∈
        [(⟨"db.json", exEncrypted, exEnvAddVersionRaises⟩ : FileInput)]
      ∧ isErr (unitOf exOptions exDecrypt (snapshotOf [exRemoteDb])
          ⟨"db.json", exEncrypted, exEnvAddVersionRaises⟩).2 = true)
    ∧ (deployExecutor true exOptions exDecrypt (Except.ok [exRemoteDb])
        [⟨"db.json", exEncrypted, exEnvAddVersionRaises⟩]).2 = false :=
  ⟨⟨List.mem_singleton.mpr rfl, by decide⟩,
    error_isolation_and_listing_abort.2.2 exOptions exDecrypt [exRemoteDb]
      [⟨"db.json", exEncrypted, exEnvAddVersionRaises⟩]
      ⟨"db.json", exEncrypted, exEnvAddVersionRaises⟩
      (List.mem_singleton.mpr rfl) (by decide)⟩

/-- **C4.**  For an existing secret whose `versions add` call raises, the
unit of work ends with that error: no retirement and no IAM operation of any
kind is performed for that secret, and at run level the failure is absorbed
into a normal `success: false` result while every declared file's unit still
contributes its events to the trace. -/
theorem addVersion_failure_skips_rest_and_run_returns (options : DeploySchema)
    (d : FileContent → FileContent) (existingSecrets : List ExistingSecret)
    (env : UnitEnv) (file : String) (fc : FileContent) (se : ExistingSecret)
    (e : String)
    (hf : filteredOut options.secret (secretNameOf file) = false)
    (hfind : existingSecrets.find? (fun s => s.name == secretNameOf file) = some se)
    (hv : env.addVersionOutcome = Except.error e) :
    (processFile options d existingSecrets env file fc).2 = Except.error e
    ∧ (∀ sn m v, Event.op (Op.retireVersion sn m v) ∉
        (processFile options d existingSecrets env file fc).1)
    ∧ (∀ ev ∈ (processFile options d existingSecrets env file fc).1,
        ev.isIamOp = false)
    ∧ (∀ (raw : List ExistingSecret) (files : List FileInput),
        snapshotOf raw = existingSecrets →
        (⟨file, fc, env⟩ : FileInput) ∈ files →
        (deployExecutor true options d (Except.ok raw) files).2 = false
        ∧ (deployExecutor true options d (Except.ok raw) files).1 =
            Event.op Op.listSecrets ::
              (files.map (fun fi =>
                (unitOf options d (snapshotOf raw) fi).1)).flatten) := by
  have hunit : processFile options d existingSecrets env file fc =
      ((if fc.meta.status = "encrypted" then [Event.store file (d fc)] else [])
        ++ ((if existingLabelStrings se.labels ≠ fc.meta.labels then
              [Event.op (Op.updateLabels (secretNameOf file)
                (addLabelsIfNeeded fc.meta.labels false))]
            else [])
          ++ [Event.op (Op.addVersion (secretNameOf file))]),
        Except.error e) := by
    simp only [processFile, hf, Bool.false_eq_true, if_false, hfind, updatePath, hv]
  refine ⟨by rw [hunit], ?_, ?_, ?_⟩
  · intro sn m v
    rw [hunit]
    simp [op_not_mem_storeIf]
  · intro ev hev
    rw [hunit] at hev
    simp only [List.mem_append] at hev
    rcases hev with (h1 | (h2 | h3))
    · revert h1; split
      · intro h1; simp only [List.mem_singleton] at h1; subst h1; rfl
      · intro h1; simp at h1
    · revert h2; split
      · intro h2; simp only [List.mem_singleton] at h2; subst h2; rfl
      · intro h2; simp at h2
    · simp only [List.mem_singleton] at h3
      subst h3; rfl
  · intro raw files hsnap hmem
    constructor
    · rw [run_flag_eq_all]
      simp only [List.all_eq_false]
      refine ⟨⟨file, fc, env⟩, hmem, ?_⟩
      simp [unitOf, hsnap, hunit, isOkTrue]
    · exact run_events_ok options d raw files

/-- Witness for `addVersion_failure_skips_rest_and_run_returns`: the
encrypted `db.json` against a remote `db` whose `versions add` raises. -/
theorem addVersion_failure_skips_rest_witness :
    (filteredOut exOptions.secret (secretNameOf "db.json") = false
      ∧ [exRemoteDb].find? (fun s => s.name == secretNameOf "db.json")
          = some exRemoteDb
      ∧ exEnvAddVersionRaises.addVersionOutcome = Except.error "boom")
    ∧ (processFile exOptions exDecrypt [exRemoteDb] exEnvAddVersionRaises
        "db.json" exEncrypted).2 = Except.error "boom" :=
  ⟨⟨by decide, by decide, rfl⟩,
    (addVersion_failure_skips_rest_and_run_returns exOptions exDecrypt
      [exRemoteDb] exEnvAddVersionRaises "db.json" exEncrypted exRemoteDb
      "boom" (by decide) (by decide) rfl).1⟩

end NxGcpSecrets

namespace NxGcpSecrets

/-- **C3, counterexample.**  Declared labels `["a=1", "b=2"]` against a
remote secret holding the same `key=value` pairs in the opposite order: the
two serializations are permutations of each other, yet the unit of work does
perform an `updateLabels` operation — refuting the claim that an
order-independent set comparison suppresses the update. -/
theorem label_set_equal_still_updates :
    exPlainAB.meta.labels.Perm (existingLabelStrings exRemoteDbSwapped.labels)
    ∧ Event.op (Op.updateLabels "db"
        (addLabelsIfNeeded exPlainAB.meta.labels false)) ∈
      (processFile exOptions exDecrypt [exRemoteDbSwapped] exEnvOk
        "db.json" exPlainAB).1 := by
  constructor
  · exact List.Perm.swap "b=2" "a=1" []
  · decide

/-- **C3, amended.**  The label diff of an existing remote secret is an
order-sensitive sequence comparison: the unit of work performs an
`updateLabels` operation exactly when the remote labels, serialized as
`key=value` strings in the labels object's key order, differ *as lists* from
the declared label sequence.  Equal sets in a different order therefore do
trigger an update. -/
theorem update_labels_iff_serialized_differ (options : DeploySchema)
    (d : FileContent → FileContent) (existingSecrets : List ExistingSecret)
    (env : UnitEnv) (file : String) (fc : FileContent) (se : ExistingSecret)
    (hf : filteredOut options.secret (secretNameOf file) = false)
    (hfind : existingSecrets.find? (fun s => s.name == secretNameOf file) = some se) :
    (Event.op (Op.updateLabels (secretNameOf file)
        (addLabelsIfNeeded fc.meta.labels false)) ∈
      (processFile options d existingSecrets env file fc).1)
    ↔ existingLabelStrings se.labels ≠ fc.meta.labels := by
  simp only [processFile, hf, Bool.false_eq_true, if_false, hfind, updatePath]
  by_cases hlab : existingLabelStrings se.labels ≠ fc.meta.labels
  · cases hv : env.addVersionOutcome with
    | error e => simp [hlab]
    | ok name =>
      cases hsa : fc.meta.serviceAccounts with
      | none => simp [iamSection, hsa, hlab]
      | some allowed =>
        cases hiam : env.iamPolicyOutcome with
        | error e2 => simp [iamSection, hsa, hiam, hlab]
        | ok pol => simp [iamSection, hsa, hiam, hlab]
  · cases hv : env.addVersionOutcome with
    | error e => simp [hlab, op_not_mem_storeIf]
    | ok name =>
      cases hsa : fc.meta.serviceAccounts with
      | none =>
        simp [iamSection, hsa, hlab, op_not_mem_storeIf]
      | some allowed =>
        cases hiam : env.iamPolicyOutcome with
        | error e2 =>
          simp [iamSection, hsa, hiam, hlab, op_not_mem_storeIf]
        | ok pol =>
          simp [iamSection, hsa, hiam, hlab, op_not_mem_storeIf, List.mem_map]

/-- Witness for `update_labels_iff_serialized_differ` at the swapped-order
input. -/
theorem update_labels_iff_serialized_differ_witness :
    (filteredOut exOptions.secret (secretNameOf "db.json") = false
      ∧ [exRemoteDbSwapped].find? (fun s => s.name == secretNameOf "db.json")
          = some exRemoteDbSwapped)
    ∧ ((Event.op (Op.updateLabels (secretNameOf "db.json")
          (addLabelsIfNeeded exPlainAB.meta.labels false)) ∈
        (processFile exOptions exDecrypt [exRemoteDbSwapped] exEnvOk
          "db.json" exPlainAB).1)
      ↔ existingLabelStrings exRemoteDbSwapped.labels ≠ exPlainAB.meta.labels) :=
  ⟨⟨by decide, by decide⟩,
    update_labels_iff_serialized_differ exOptions exDecrypt [exRemoteDbSwapped]
      exEnvOk "db.json" exPlainAB exRemoteDbSwapped (by decide) (by decide)⟩

end NxGcpSecrets

namespace NxGcpSecrets

/-- **C6.**  For every declared secret that exists in the remote snapshot,
the unit of work performs an `addVersion` operation unconditionally — the
payload is never inspected — and whenever the serialized remote labels
differ from the declared ones, the `updateLabels` operation immediately
precedes `addVersion` in the unit's event trace. -/
theorem existing_secret_always_adds_version (options : DeploySchema)
    (d : FileContent → FileContent) (existingSecrets : List ExistingSecret)
    (env : UnitEnv) (file : String) (fc : FileContent) (se : ExistingSecret)
    (hf : filteredOut options.secret (secretNameOf file) = false)
    (hfind : existingSecrets.find? (fun s => s.name == secretNameOf file) = some se) :
    Event.op (Op.addVersion (secretNameOf file)) ∈
      (processFile options d existingSecrets env file fc).1
    ∧ (existingLabelStrings se.labels ≠ fc.meta.labels →
        ∃ pre post, (processFile options d existingSecrets env file fc).1 =
          pre ++ (Event.op (Op.updateLabels (secretNameOf file)
              (addLabelsIfNeeded fc.meta.labels false))
            :: Event.op (Op.addVersion (secretNameOf file)) :: post)) := by
  simp only [processFile, hf, Bool.false_eq_true, if_false, hfind, updatePath]
  constructor
  · cases hv : env.addVersionOutcome with
    | error e => simp
    | ok name =>
      cases hsa : fc.meta.serviceAccounts with
      | none => simp [iamSection, hsa]
      | some allowed =>
        cases hiam : env.iamPolicyOutcome with
        | error e2 => simp [iamSection, hsa, hiam]
        | ok pol => simp [iamSection, hsa, hiam]
  · intro hlab
    cases hv : env.addVersionOutcome with
    | error e =>
      rw [if_pos hlab]
      exact ⟨_, _, rfl⟩
    | ok name =>
      cases hsa : fc.meta.serviceAccounts with
      | none =>
        simp [iamSection, hsa, hlab]
        exact ⟨_, _, rfl⟩
      | some allowed =>
        cases hiam : env.iamPolicyOutcome with
        | error e2 =>
          simp [iamSection, hsa, hiam, hlab]
          exact ⟨_, _, rfl⟩
        | ok pol =>
          simp [iamSection, hsa, hiam, hlab]
          exact ⟨_, _, rfl⟩

/-- Witness for `existing_secret_always_adds_version`: plaintext `db.json`
against an existing unlabelled remote `db`. -/
theorem existing_secret_always_adds_version_witness :
    (filteredOut exOptions.secret (secretNameOf "db.json") = false
      ∧ [exRemoteDb].find? (fun s => s.name == secretNameOf "db.json")
          = some exRemoteDb)
    ∧ Event.op (Op.addVersion (secretNameOf "db.json")) ∈
        (processFile exOptions exDecrypt [exRemoteDb] exEnvOk
          "db.json" exPlain).1 :=
  ⟨⟨by decide, by decide⟩,
    (existing_secret_always_adds_version exOptions exDecrypt [exRemoteDb]
      exEnvOk "db.json" exPlain exRemoteDb (by decide) (by decide)).1⟩

end NxGcpSecrets

namespace NxGcpSecrets

/-- **C7.**  After `versions add` succeeds with new version `name`, the
update behaviour (the metadata value, defaulting to `destroy` when absent)
drives retirement: `destroy` or `disable` performs a `retireVersion` with
that mode targeting the parsed new version minus one; `none` performs no
retirement; any other value performs no retirement either (only a warning is
logged) and the unit's update path still reports success. -/
theorem retirement_policy_cases (secretName : String) (fc : FileContent)
    (se : ExistingSecret) (env : UnitEnv) (name : String)
    (hv : env.addVersionOutcome = Except.ok name) :
    (fc.meta.onUpdateBehavior = none →
      jsOrDefault fc.meta.onUpdateBehavior "destroy" = "destroy")
    ∧ ((jsOrDefault fc.meta.onUpdateBehavior "destroy" = "destroy"
        ∨ jsOrDefault fc.meta.onUpdateBehavior "destroy" = "disable") →
        Event.op (Op.retireVersion secretName
          (jsOrDefault fc.meta.onUpdateBehavior "destroy")
          ((parseIntJs (lastSplit name "/versions/")).map (fun n => n - 1))) ∈
          (updatePath secretName fc se env).1)
    ∧ (jsOrDefault fc.meta.onUpdateBehavior "destroy" = "none" →
        ∀ sn m v, Event.op (Op.retireVersion sn m v) ∉
          (updatePath secretName fc se env).1)
    ∧ (jsOrDefault fc.meta.onUpdateBehavior "destroy" ≠ "none" →
        jsOrDefault fc.meta.onUpdateBehavior "destroy" ≠ "destroy" →
        jsOrDefault fc.meta.onUpdateBehavior "destroy" ≠ "disable" →
        ∀ sn m v, Event.op (Op.retireVersion sn m v) ∉
          (updatePath secretName fc se env).1)
    ∧ (updatePath secretName fc se env).2 = Except.ok true := by
  refine ⟨?_, ?_, ?_, ?_, ?_⟩
  · intro h; simp [jsOrDefault, h]
  · intro h
    have hne : jsOrDefault fc.meta.onUpdateBehavior "destroy" ≠ "none" := by
      rcases h with h | h <;> rw [h] <;> decide
    simp [updatePath, hv, hne, h]
  · intro h sn m v
    simp [updatePath, hv, h]
  · intro h1 h2 h3 sn m v
    simp [updatePath, hv, h1, h2, h3]
  · simp [updatePath, hv]

/-- Witness for `retirement_policy_cases`: absent `onUpdateBehavior`
defaults to `destroy` and version `5 - 1 = 4` is retired. -/
theorem retirement_policy_cases_witness :
    (exEnvOk.addVersionOutcome = Except.ok "projects/p/secrets/db/versions/5"
      ∧ (jsOrDefault exPlain.meta.onUpdateBehavior "destroy" = "destroy"
        ∨ jsOrDefault exPlain.meta.onUpdateBehavior "destroy" = "disable"))
    ∧ Event.op (Op.retireVersion "db"
        (jsOrDefault exPlain.meta.onUpdateBehavior "destroy")
        ((parseIntJs (lastSplit "projects/p/secrets/db/versions/5"
          "/versions/")).map (fun n => n - 1))) ∈
      (updatePath "db" exPlain exRemoteDb exEnvOk).1 :=
  ⟨⟨rfl, Or.inl (by decide)⟩,
    (retirement_policy_cases "db" exPlain exRemoteDb exEnvOk
      "projects/p/secrets/db/versions/5" rfl).2.1 (Or.inl (by decide))⟩

end NxGcpSecrets

namespace NxGcpSecrets


lemma all_ite_singleton {α : Type} {p : Prop} [Decidable p] (x : α)
    (q : α → Bool) :
    (if p then [x] else []).all q = if p then q x else true := by
  split <;> simp

lemma no_iam_events_of_no_service_accounts (options : DeploySchema)
    (d : FileContent → FileContent) (existingSecrets : List ExistingSecret)
    (env : UnitEnv) (file : String) (fc : FileContent)
    (hsa : fc.meta.serviceAccounts = none) :
    ((processFile options d existingSecrets env file fc).1.all
      (fun ev => !ev.isIamOp)) = true := by
  by_cases hfo : filteredOut options.secret (secretNameOf file) = true
  · simp [processFile, hfo]
  · have hfo' : filteredOut options.secret (secretNameOf file) = false := by
      simpa using hfo
    simp only [processFile, hfo', Bool.false_eq_true, if_false]
    cases hfind : existingSecrets.find? (fun s => s.name == secretNameOf file) with
    | some se =>
      simp only [updatePath]
      cases hv : env.addVersionOutcome with
      | error e =>
        simp [List.all_append, all_ite_singleton, Event.isIamOp]
      | ok name =>
        simp [iamSection, hsa, List.all_append, all_ite_singleton,
          Event.isIamOp]
        intro x h1 h2 h3
        subst h3
        rfl
    | none =>
      simp only [createPath]
      cases hv : env.createOutcome with
      | error e =>
        simp [List.all_append, all_ite_singleton, Event.isIamOp]
      | ok b =>
        simp [iamSection, hsa, List.all_append, all_ite_singleton,
          Event.isIamOp]

/-- **C8.**  IAM reconciliation is gated on the metadata: any get-iam-policy,
grant or revoke event in a unit's trace implies the definition declares a
`serviceAccounts` list (the policy is fetched only in that case); and when it
is performed, the planned changes are a pure set difference — a member is
granted iff it is declared and not currently bound to the accessor role, and
revoked iff currently bound and not declared — so the outcome depends only on
membership, not on the ordering of either list. -/
theorem iam_lazily_fetched_and_pure_set_difference :
    (∀ (options : DeploySchema) (d : FileContent → FileContent)
        (existingSecrets : List ExistingSecret) (env : UnitEnv)
        (file : String) (fc : FileContent) (ev : Event),
      ev ∈ (processFile options d existingSecrets env file fc).1 →
      ev.isIamOp = true → fc.meta.serviceAccounts ≠ none)
    ∧ (∀ (sn : String) (meta : GcpMetadata) (env : UnitEnv)
        (allowed : List String) (pol : ExistingServiceAccounts) (m : String),
      meta.serviceAccounts = some allowed →
      env.iamPolicyOutcome = Except.ok pol →
      (Event.op (Op.grant sn m) ∈ (iamSection sn meta env).1 ↔
        m ∈ allowed ∧ m ∉ existingAccessorMembers pol)
      ∧ (Event.op (Op.revoke sn m) ∈ (iamSection sn meta env).1 ↔
        m ∈ existingAccessorMembers pol ∧ m ∉ allowed)) := by
  constructor
  · intro options d existingSecrets env file fc ev hmem hiam
    cases hsa : fc.meta.serviceAccounts with
    | some _ => simp
    | none =>
      have hall := no_iam_events_of_no_service_accounts options d
        existingSecrets env file fc hsa
      have := List.all_eq_true.mp hall ev hmem
      rw [hiam] at this
      exact absurd this (by simp)
  · intro sn meta env allowed pol m hsa hiam
    constructor
    · simp [iamSection, hsa, hiam, List.mem_map, List.mem_filter, List.elem_iff]
    · simp [iamSection, hsa, hiam, List.mem_map, List.mem_filter, List.elem_iff]

/-- Witness for `iam_lazily_fetched_and_pure_set_difference`: declared
`{sa:x, sa:y}` against bound `{sa:y, sa:z}` grants exactly `sa:x`. -/
theorem iam_pure_set_difference_witness :
    (exSaMeta.serviceAccounts = some ["sa:x", "sa:y"]
      ∧ exEnvPol.iamPolicyOutcome = Except.ok exPolicy)
    ∧ (Event.op (Op.grant "db" "sa:x") ∈ (iamSection "db" exSaMeta exEnvPol).1 ↔
        "sa:x" ∈ ["sa:x", "sa:y"] ∧ "sa:x" ∉ existingAccessorMembers exPolicy) :=
  ⟨⟨rfl, rfl⟩,
    (iam_lazily_fetched_and_pure_set_difference.2 "db" exSaMeta exEnvPol
      ["sa:x", "sa:y"] exPolicy "sa:x" rfl rfl).1⟩

end NxGcpSecrets

namespace NxGcpSecrets


/-- **C9.**  The run's success flag is the conjunction of the per-file unit
results over all declared files (a unit that rejected or resolved `false`
makes it `false`); a file excluded by the `secret` filter contributes a
trivially successful unit with no events; and a run in which every declared
file is filtered out returns success with no operation beyond the up-front
listing. -/
theorem run_success_is_and_of_results :
    (∀ (options : DeploySchema) (d : FileContent → FileContent)
        (raw : List ExistingSecret) (files : List FileInput),
      (deployExecutor true options d (Except.ok raw) files).2 =
        files.all (fun fi => isOkTrue (unitOf options d (snapshotOf raw) fi).2))
    ∧ (∀ (options : DeploySchema) (d : FileContent → FileContent)
        (existingSecrets : List ExistingSecret) (env : UnitEnv)
        (file : String) (fc : FileContent),
      filteredOut options.secret (secretNameOf file) = true →
      processFile options d existingSecrets env file fc = ([], Except.ok true))
    ∧ (∀ (options : DeploySchema) (d : FileContent → FileContent)
        (raw : List ExistingSecret) (files : List FileInput),
      (∀ fi ∈ files, filteredOut options.secret (secretNameOf fi.file) = true) →
      deployExecutor true options d (Except.ok raw) files =
        ([Event.op Op.listSecrets], true)) := by
  have hskip : ∀ (options : DeploySchema) (d : FileContent → FileContent)
      (existingSecrets : List ExistingSecret) (env : UnitEnv)
      (file : String) (fc : FileContent),
      filteredOut options.secret (secretNameOf file) = true →
      processFile options d existingSecrets env file fc = ([], Except.ok true) := by
    intro options d existingSecrets env file fc h
    simp [processFile, h]
  refine ⟨run_flag_eq_all, hskip, ?_⟩
  intro options d raw files hall
  have hunit : ∀ fi ∈ files,
      unitOf options d (snapshotOf raw) fi = ([], Except.ok true) := by
    intro fi hfi
    exact hskip options d (snapshotOf raw) fi.env fi.file fi.content (hall fi hfi)
  rw [Prod.ext_iff]
  constructor
  · rw [run_events_ok]
    simp only [List.cons.injEq, true_and]
    rw [List.flatten_eq_nil_iff]
    intro l hl
    rcases List.mem_map.mp hl with ⟨fi, hfi, rfl⟩
    rw [hunit fi hfi]
  · rw [run_flag_eq_all]
    rw [List.all_eq_true]
    intro fi hfi
    rw [hunit fi hfi]
    rfl

/-- Witness for `run_success_is_and_of_results`: a `secret: other` filter
matching no declared file yields a successful, operation-free run. -/
theorem run_success_trivial_filter_witness :
    (∀ fi ∈ [(⟨"db.json", exPlain, exEnvOk⟩ : FileInput)],
      filteredOut exOptionsOther.secret (secretNameOf fi.file) = true)
    ∧ deployExecutor true exOptionsOther exDecrypt (Except.ok [])
        [⟨"db.json", exPlain, exEnvOk⟩] = ([Event.op Op.listSecrets], true) :=
  ⟨by decide,
    run_success_is_and_of_results.2.2 exOptionsOther exDecrypt []
      [⟨"db.json", exPlain, exEnvOk⟩] (by decide)⟩

end NxGcpSecrets

namespace NxGcpSecrets


/-- **C10.**  For an encrypted definition whose unit of work completes
without an exception, the trace contains a write of exactly the original
in-memory content (`fc` itself, not a re-computed encryption) after which no
further write occurs, and every IAM call (get-iam-policy, grant, revoke)
happens only after that restoring write; a definition whose status is not
`encrypted` is never written back at all. -/
theorem reencrypt_restores_original_before_iam :
    (∀ (options : DeploySchema) (d : FileContent → FileContent)
        (existingSecrets : List ExistingSecret) (env : UnitEnv)
        (file : String) (fc : FileContent) (s : Bool),
      filteredOut options.secret (secretNameOf file) = false →
      fc.meta.status = "encrypted" →
      (processFile options d existingSecrets env file fc).2 = Except.ok s →
      ∃ pre post,
        (processFile options d existingSecrets env file fc).1 =
          pre ++ Event.store file fc :: post
        ∧ post.all (fun ev => !ev.isStore) = true
        ∧ pre.all (fun ev => !ev.isIamOp) = true)
    ∧ (∀ (options : DeploySchema) (d : FileContent → FileContent)
        (existingSecrets : List ExistingSecret) (env : UnitEnv)
        (file : String) (fc : FileContent),
      fc.meta.status ≠ "encrypted" →
      (processFile options d existingSecrets env file fc).1.all
        (fun ev => !ev.isStore) = true) := by
  constructor
  · intro options d existingSecrets env file fc s hf henc hok
    revert hok
    simp only [processFile, hf, Bool.false_eq_true, if_false, henc, if_true]
    cases hfind : existingSecrets.find? (fun s => s.name == secretNameOf file) with
    | some se =>
      simp only [updatePath]
      cases hv : env.addVersionOutcome with
      | error e => intro hok; exact absurd hok (by simp)
      | ok name =>
        cases hsa : fc.meta.serviceAccounts with
        | none =>
          intro hok
          refine ⟨Event.store file (d fc) ::
            ((if existingLabelStrings se.labels ≠ fc.meta.labels then
                [Event.op (Op.updateLabels (secretNameOf file)
                  (addLabelsIfNeeded fc.meta.labels false))]
              else [])
              ++ [Event.op (Op.addVersion (secretNameOf file))]
              ++ (if jsOrDefault fc.meta.onUpdateBehavior "destroy" ≠ "none" then
                  if jsOrDefault fc.meta.onUpdateBehavior "destroy" = "destroy"
                      ∨ jsOrDefault fc.meta.onUpdateBehavior "destroy" = "disable" then
                    [Event.op (Op.retireVersion (secretNameOf file)
                      (jsOrDefault fc.meta.onUpdateBehavior "destroy")
                      ((parseIntJs (lastSplit name "/versions/")).map
                        (fun n => n - 1)))]
                  else []
                else [])), [], ?_, ?_, ?_⟩
          · simp [iamSection, hsa]
          · rfl
          · simp [List.all_append, all_ite_singleton, Event.isIamOp]
            intro x h1 h2 h3
            subst h3
            rfl
        | some allowed =>
          cases hiam : env.iamPolicyOutcome with
          | error e =>
            intro hok
            exact absurd hok (by simp [iamSection, hsa, hiam])
          | ok pol =>
            intro hok
            refine ⟨Event.store file (d fc) ::
              ((if existingLabelStrings se.labels ≠ fc.meta.labels then
                  [Event.op (Op.updateLabels (secretNameOf file)
                    (addLabelsIfNeeded fc.meta.labels false))]
                else [])
                ++ [Event.op (Op.addVersion (secretNameOf file))]
                ++ (if jsOrDefault fc.meta.onUpdateBehavior "destroy" ≠ "none" then
                    if jsOrDefault fc.meta.onUpdateBehavior "destroy" = "destroy"
                        ∨ jsOrDefault fc.meta.onUpdateBehavior "destroy" = "disable" then
                      [Event.op (Op.retireVersion (secretNameOf file)
                        (jsOrDefault fc.meta.onUpdateBehavior "destroy")
                        ((parseIntJs (lastSplit name "/versions/")).map
                          (fun n => n - 1)))]
                    else []
                  else [])),
              Event.op (Op.getIamPolicy (secretNameOf file)) ::
                ((allowed.filter (fun a =>
                    !(existingAccessorMembers pol).contains a)).map
                  (fun m => Event.op (Op.grant (secretNameOf file) m))
                ++ ((existingAccessorMembers pol).filter (fun a =>
                    !allowed.contains a)).map
                  (fun m => Event.op (Op.revoke (secretNameOf file) m))),
              ?_, ?_, ?_⟩
            · simp [iamSection, hsa, hiam]
            · simp [List.all_append, List.all_map, Function.comp_def,
                Event.isStore, List.all_eq_true]
              constructor
              · intro x x1 h1 h2 h3
                subst h3
                rfl
              · intro x x1 h1 h2 h3
                subst h3
                rfl
            · simp [List.all_append, all_ite_singleton, Event.isIamOp]
              intro x h1 h2 h3
              subst h3
              rfl
    | none =>
      simp only [createPath]
      cases hv : env.createOutcome with
      | error e => intro hok; exact absurd hok (by simp)
      | ok b =>
        cases hsa : fc.meta.serviceAccounts with
        | none =>
          intro hok
          refine ⟨Event.store file (d fc) ::
            [Event.op (Op.create (secretNameOf file)
              (addLabelsIfNeeded fc.meta.labels true))], [], ?_, ?_, ?_⟩
          · simp [iamSection, hsa]
          · rfl
          · simp [Event.isIamOp]
        | some allowed =>
          cases hiam : env.iamPolicyOutcome with
          | error e =>
            intro hok
            exact absurd hok (by simp [iamSection, hsa, hiam])
          | ok pol =>
            intro hok
            refine ⟨Event.store file (d fc) ::
              [Event.op (Op.create (secretNameOf file)
                (addLabelsIfNeeded fc.meta.labels true))],
              Event.op (Op.getIamPolicy (secretNameOf file)) ::
                ((allowed.filter (fun a =>
                    !(existingAccessorMembers pol).contains a)).map
                  (fun m => Event.op (Op.grant (secretNameOf file) m))
                ++ ((existingAccessorMembers pol).filter (fun a =>
                    !allowed.contains a)).map
                  (fun m => Event.op (Op.revoke (secretNameOf file) m))),
              ?_, ?_, ?_⟩
            · simp [iamSection, hsa, hiam]
            · simp [List.all_append, List.all_map, Function.comp_def,
                Event.isStore, List.all_eq_true]
              constructor
              · intro x x1 h1 h2 h3
                subst h3
                rfl
              · intro x x1 h1 h2 h3
                subst h3
                rfl
            · simp [Event.isIamOp]
  · intro options d existingSecrets env file fc henc
    by_cases hfo : filteredOut options.secret (secretNameOf file) = true
    · simp [processFile, hfo]
    · have hfo' : filteredOut options.secret (secretNameOf file) = false := by
        simpa using hfo
      simp only [processFile, hfo', Bool.false_eq_true, if_false, henc]
      cases hfind : existingSecrets.find? (fun s => s.name == secretNameOf file) with
      | some se =>
        simp only [updatePath]
        cases hv : env.addVersionOutcome with
        | error e =>
          simp [henc, List.all_append, all_ite_singleton, Event.isStore]
        | ok name =>
          cases hsa : fc.meta.serviceAccounts with
          | none =>
            simp [henc, iamSection, hsa, List.all_append, all_ite_singleton,
              Event.isStore]
            intro x h1 h2 h3
            subst h3
            rfl
          | some allowed =>
            cases hiam : env.iamPolicyOutcome with
            | error e =>
              simp [henc, iamSection, hsa, hiam, List.all_append,
                all_ite_singleton, Event.isStore]
              intro x h1 h2 h3
              subst h3
              rfl
            | ok pol =>
              simp [henc, iamSection, hsa, hiam, List.all_append,
                all_ite_singleton, Event.isStore, List.all_map,
                Function.comp_def]
              refine ⟨?_, ?_, ?_⟩
              · intro x h1 h2 h3
                subst h3
                rfl
              · intro x x1 h1 h2 h3
                subst h3
                rfl
              · intro x x1 h1 h2 h3
                subst h3
                rfl
      | none =>
        simp only [createPath]
        cases hv : env.createOutcome with
        | error e =>
          simp [henc, List.all_append, all_ite_singleton, Event.isStore]
        | ok b =>
          cases hsa : fc.meta.serviceAccounts with
          | none =>
            simp [henc, iamSection, hsa, List.all_append, all_ite_singleton,
              Event.isStore]
          | some allowed =>
            cases hiam : env.iamPolicyOutcome with
            | error e =>
              simp [henc, iamSection, hsa, hiam, List.all_append,
                all_ite_singleton, Event.isStore]
            | ok pol =>
              simp [henc, iamSection, hsa, hiam, List.all_append,
                all_ite_singleton, Event.isStore, List.all_map,
                Function.comp_def]
              constructor
              · intro x x1 h1 h2 h3
                subst h3
                rfl
              · intro x x1 h1 h2 h3
                subst h3
                rfl

/-- Witness for `reencrypt_restores_original_before_iam`: the encrypted
`db.json` deployed over an existing remote `db` with all calls succeeding. -/
theorem reencrypt_restores_original_witness :
    (filteredOut exOptions.secret (secretNameOf "db.json") = false
      ∧ exEncrypted.meta.status = "encrypted"
      ∧ (processFile exOptions exDecrypt [exRemoteDb] exEnvOk "db.json"
          exEncrypted).2 = Except.ok true)
    ∧ ∃ pre post,
        (processFile exOptions exDecrypt [exRemoteDb] exEnvOk "db.json"
          exEncrypted).1 = pre ++ Event.store "db.json" exEncrypted :: post
        ∧ post.all (fun ev => !ev.isStore) = true
        ∧ pre.all (fun ev => !ev.isIamOp) = true :=
  ⟨⟨by decide, by decide, rfl⟩,
    reencrypt_restores_original_before_iam.1 exOptions exDecrypt [exRemoteDb]
      exEnvOk "db.json" exEncrypted true (by decide) (by decide) rfl⟩

end NxGcpSecrets

namespace NxGcpSecrets

/-- **C1.**  Evaluation at the failing input: for the encrypted `db.json`
whose `versions add` call raises, the unit of work ends with the exception,
the content left on disk is the decrypted one (status `plaintext`), and no
event ever writes the original encrypted content back — the re-encryption
step on the exception path is skipped, so the invariant claimed by the spec
does not hold in the code. -/
theorem encrypted_file_left_decrypted_on_error :
    (processFile exOptions exDecrypt [exRemoteDb] exEnvAddVersionRaises
        "db.json" exEncrypted).2 = Except.error "boom"
    ∧ finalContent "db.json" exEncrypted
        (processFile exOptions exDecrypt [exRemoteDb] exEnvAddVersionRaises
          "db.json" exEncrypted).1 = exDecrypt exEncrypted
    ∧ (exDecrypt exEncrypted).meta.status = "plaintext"
    ∧ Event.store "db.json" exEncrypted ∉
        (processFile exOptions exDecrypt [exRemoteDb] exEnvAddVersionRaises
          "db.json" exEncrypted).1 :=
  ⟨rfl, by decide, by decide, by decide⟩

end NxGcpSecrets
